import Mathlib

/-!
Verification of the AdventOfCode2020 repository (jstuczyn/AdventOfCode2020).

Each day of the repository is a standalone Rust program.  This file gives a
shallow embedding of the data model and the operations of the days the frozen
claims are about (day1, day5, day9, day13, day17, day22, day24, day25 and the
shared `utils::input_read` module), together with theorems settling the claims.

Modelling conventions used throughout:
* Rust `&str`/`String` values are modelled as `List Char`; helper functions
  (`splitOnP`, `rustLines`, `parse_usize`, ...) mirror the `str` methods used
  by the source (`lines`, `split`, `split_ascii_whitespace`, `parse`).
* `usize` is modelled as `Nat` and `isize` as `Int`; where the source relies on
  wrapping or casts this is made explicit (`% USIZE` in day25's `mod_pow`,
  `as_usize` for day13's final cast).  Rust `%` and `/` on `isize` truncate
  towards zero and are modelled by `Int.tmod` / `Int.tdiv`.
* A Rust `panic!` / `expect` / failed `assert!` is modelled by `Option.none`
  (or by the `Run.aborted` constructor for whole-program runs).
* The file system seen by a `main` function is modelled as
  `FS := String → Option (List Char)`: `none` means the file does not exist.
* Loops without a structural termination measure (day22's Combat loop, the
  round loop of the recursive game, day25's brute-force key search) take an
  explicit fuel argument; exhausted fuel is `none` / `Run.fuelOut`, which the
  source distinguishes from a panic (it would simply keep running).
-/

namespace AoC2020

/-- File system abstraction: maps a path to the contents of the file, `none`
if no such file exists. -/
def FS : Type := String → Option (List Char)

/-- Result of running one day's `main`: it either prints a list of stdout
lines and exits, aborts via a panic, or is still running after the supplied
fuel is exhausted (only possible for the days whose embedding needs fuel). -/
inductive Run where
  | done (lines : List String)
  | aborted
  | fuelOut
deriving DecidableEq, Repr

/-- Splits a character list at every character satisfying `p`, keeping empty
chunks; mirrors Rust `str::split`. -/
def splitOnP (p : Char → Bool) : List Char → List (List Char)
  | [] => [[]]
  | c :: rest =>
    match splitOnP p rest with
    | [] => [[]]
    | g :: gs => if p c then [] :: g :: gs else (c :: g) :: gs

/-- Rust `char::is_ascii_whitespace`. -/
def isAsciiWS (c : Char) : Bool :=
  c = ' ' || c = '\t' || c = '\n' || c = '\r' || c = '\x0c'

/-- Rust `str::split_ascii_whitespace`: split on ascii whitespace, dropping
empty chunks. -/
def splitAsciiWS (s : List Char) : List (List Char) :=
  (splitOnP isAsciiWS s).filter (· ≠ [])

/-- Strips one trailing carriage return, as Rust `str::lines` does. -/
def stripCR (l : List Char) : List Char :=
  if l.getLast? = some '\r' then l.dropLast else l

/-- Rust `str::lines`: split on `'\n'`, do not yield a final empty line, strip
one `'\r'` from the end of each line. -/
def rustLines (s : List Char) : List (List Char) :=
  let parts := splitOnP (· = '\n') s
  let parts := if parts.getLast? = some [] then parts.dropLast else parts
  parts.map stripCR

/-- Rust `str::split("\n\n")` (used by `read_into_string_groups`): split on
non-overlapping occurrences of two consecutive newlines, keeping empties. -/
def splitBlankLine : List Char → List (List Char)
  | [] => [[]]
  | '\n' :: '\n' :: rest =>
    match splitBlankLine rest with
    | [] => [[]]
    | gs => [] :: gs
  | c :: rest =>
    match splitBlankLine rest with
    | [] => [[]]
    | g :: gs => (c :: g) :: gs

/-- Digit-string value accumulator for `parse_usize`. -/
def digitsVal (l : List Char) : Nat :=
  l.foldl (fun acc c => acc * 10 + (c.toNat - '0'.toNat)) 0

/-- The all-digits, non-empty test of `usize::from_str` (after the optional
sign has been stripped). -/
def parseDigits (l : List Char) : Option Nat :=
  if l ≠ [] ∧ l.all (·.isDigit) then some (digitsVal l) else none

/-- Rust `str::parse::<usize>()` (`usize::from_str`): optional leading `'+'`
followed by at least one ascii digit.  Overflow of 64-bit `usize` is not
modelled: every literal the repository parses is far below `2^64`. -/
def parse_usize (l : List Char) : Option Nat :=
  match l with
  | '+' :: rest => parseDigits rest
  | _ => parseDigits l

end AoC2020

namespace AoC2020.Day25

/-- src/day25/src/main.rs: `const ORDER: usize = 20201227;` -/
def ORDER : Nat := 20201227

/-- src/day25/src/main.rs: `const GENERATOR: usize = 7;` -/
def GENERATOR : Nat := 7

/-- One more than `usize::MAX`: products in `mod_pow` wrap modulo `2^64`. -/
def USIZE : Nat := 2 ^ 64

/-- The `while exp > 0` loop of day25's `mod_pow`, with the two
multiplications performed in wrapping 64-bit arithmetic (in release mode Rust
wraps; the no-overflow precondition of the claims makes the wrap a no-op). -/
def mod_pow_loop (base result exp modulus : Nat) : Nat :=
  if exp = 0 then result
  else
    mod_pow_loop (base * base % USIZE % modulus)
      (if exp % 2 = 1 then result * base % USIZE % modulus else result)
      (exp / 2) modulus
termination_by exp
decreasing_by exact Nat.div_lt_self (Nat.pos_of_ne_zero (by assumption)) one_lt_two

/-- src/day25/src/main.rs `mod_pow`: right-to-left binary modular
exponentiation.  `modulus == 1` returns 0 immediately; otherwise `base` is
first reduced modulo `modulus`. -/
def mod_pow (base exp modulus : Nat) : Nat :=
  if modulus = 1 then 0
  else mod_pow_loop (base % modulus) 1 exp modulus

/-- src/day25/src/main.rs `derive_public_key`. -/
def derive_public_key (secret : Nat) : Nat :=
  mod_pow GENERATOR secret ORDER

/-- src/day25/src/main.rs `reverse_private_key`: brute-force discrete
logarithm, starting from candidate 1.  The source's `loop` has no bound, so
the embedding takes fuel; `none` means the loop is still running. -/
def reverse_private_key (fuel : Nat) (firstCandidate : Nat) (pub : Nat) : Option Nat :=
  match fuel with
  | 0 => none
  | fuel + 1 =>
    if derive_public_key firstCandidate = pub then some firstCandidate
    else reverse_private_key fuel (firstCandidate + 1) pub

/-- src/day25/src/main.rs `diffie_hellman_ish_thing`. -/
def diffie_hellman_ish_thing (localSecret remotePublic : Nat) : Nat :=
  mod_pow remotePublic localSecret ORDER

/-- src/day25/src/main.rs `part1`. -/
def part1 (fuel : Nat) (pubKeys : Nat × Nat) : Option Nat :=
  (reverse_private_key fuel 1 pubKeys.1).map
    (fun priv => diffie_hellman_ish_thing priv pubKeys.2)

/-- src/day25/src/main.rs `main`: the input pair is hardcoded, no file is
read, and a single result line is printed. -/
def main (fuel : Nat) (_fs : FS) : Run :=
  match part1 fuel (14788856, 19316454) with
  | none => Run.fuelOut
  | some r => Run.done ["Part 1 result is " ++ toString r]

end AoC2020.Day25

namespace AoC2020.Day5

/-- src/day5/src/main.rs `Seat`: `row` is a 7-bit value, `column` a 3-bit
value (both `u8` in the source; the loops below only ever set bits 0-6 and
0-2 respectively, so `Nat` is exact). -/
structure Seat where
  row : Nat
  column : Nat
deriving DecidableEq, Repr

/-- src/day5/src/main.rs `Seat::id`. -/
def Seat.id (s : Seat) : Nat := s.row * 8 + s.column

/-- Number of bytes of the UTF-8 encoding of a character (Rust `String::len`
counts bytes). -/
def utf8Len (c : Char) : Nat :=
  if c.toNat < 0x80 then 1
  else if c.toNat < 0x800 then 2
  else if c.toNat < 0x10000 then 3
  else 4

/-- Rust `str::len`: the length in bytes. -/
def byteLen (l : List Char) : Nat := (l.map utf8Len).sum

/-- Rust `str::is_ascii`. -/
def isAscii (l : List Char) : Bool := l.all (fun c => c.toNat < 128)

/-- The `for (i, c) in raw.chars().rev().enumerate()` loops of
`Seat::try_from`: or the bit `1 <<< i` into the accumulator for each `high`
character, fail on any character that is neither `high` nor `low`. -/
def bitsAux (high low : Char) : List (Nat × Char) → Nat → Option Nat
  | [], acc => some acc
  | (i, c) :: rest, acc =>
    if c = high then bitsAux high low rest (acc ||| (1 <<< i))
    else if c ≠ low then none
    else bitsAux high low rest acc

/-- One of the two bit-accumulation loops of `Seat::try_from`, over the
reversed, enumerated character list. -/
def bitFold (high low : Char) (raw : List Char) : Option Nat :=
  bitsAux high low raw.reverse.enum 0

/-- src/day5/src/main.rs `Seat::try_from`: reject non-ascii or
non-10-byte strings, then decode the first 7 characters as a row in B/F
binary and the last 3 as a column in R/L binary. -/
def try_from (v : List Char) : Option Seat :=
  if ¬ isAscii v ∨ byteLen v ≠ 10 then none
  else do
    let row ← bitFold 'B' 'F' (v.take 7)
    let column ← bitFold 'R' 'L' (v.drop 7)
    some ⟨row, column⟩

/-- src/day5/src/main.rs `part1`: maximum id of the well-formed seats. -/
def part1 (input : List (List Char)) : Option Nat :=
  ((input.filterMap try_from).map Seat.id).max?

/-- The sorted seat-id list of `part2` (`sort_unstable`, modelled by its
contract: the ascending sorted permutation, which is unique over `Nat`). -/
def sortedIds (input : List (List Char)) : List Nat :=
  ((input.filterMap try_from).map Seat.id).insertionSort (· ≤ ·)

/-- The `gaps` vector of `part2`: for every adjacent pair (`tuple_windows`)
of sorted ids with a hole after the first, record `prev + 1`. -/
def gaps (input : List (List Char)) : List Nat :=
  let ids := sortedIds input
  (ids.zip ids.tail).filterMap
    (fun p => if p.1 + 1 ≠ p.2 then some (p.1 + 1) else none)

/-- The diagnostic line `part2` writes to stderr via `eprintln!` when it
finds several gap candidates. -/
def stderrLine (gs : List Nat) : String :=
  "found multiple possible seat locations! - " ++ toString gs

/-- src/day5/src/main.rs `part2`, with its observable stderr output made
explicit: the result is the answer (`gaps.pop()`, i.e. the last gap) paired
with the list of lines written to stderr. -/
def part2 (input : List (List Char)) : Option Nat × List String :=
  let gs := gaps input
  if gs.length ≠ 1 ∧ gs ≠ [] then (none, [stderrLine gs])
  else (gs.getLast?, [])

end AoC2020.Day5

namespace AoC2020

/-- The first failure kind of `usize::from_str` on a string that does not
parse: an empty string reports kind `Empty`, anything else that fails reports
`InvalidDigit` (overflow is not modelled, see `parse_usize`).  The text is
the `Debug` rendering that `read_line_input` formats into its error. -/
def parse_usize_err (l : List Char) : String :=
  if l = [] then "ParseIntError \x7b kind: Empty \x7d"
  else "ParseIntError \x7b kind: InvalidDigit \x7d"

/-- `str::parse::<usize>()` with its error value: the form `FromStr` takes in
`read_line_input`, where the `Debug` rendering of the error is kept. -/
def parse_usizeE (l : List Char) : Except String Nat :=
  match parse_usize l with
  | some n => .ok n
  | none => .error (parse_usize_err l)

/-- `itertools::tuple_combinations::<(_, _)>` on a slice: all index pairs
`i < j` in lexicographic order. -/
def pairsOf {α : Type} : List α → List (α × α)
  | [] => []
  | x :: rest => rest.map (fun y => (x, y)) ++ pairsOf rest

/-- `itertools::tuple_combinations::<(_, _, _)>` on a slice: all index
triples `i < j < k` in lexicographic order. -/
def triplesOf {α : Type} : List α → List (α × α × α)
  | [] => []
  | x :: rest => (pairsOf rest).map (fun p => (x, p.1, p.2)) ++ triplesOf rest

end AoC2020

namespace AoC2020.Utils

/-- The two `std::io::Error` shapes produced by `input_read`: `File::open` on
a missing file (`NotFound`), and the `InvalidData` error manufactured for an
unparsable line. -/
inductive IOError where
  | notFound
  | invalidData (msg : String)
deriving DecidableEq, Repr

/-- The message `read_line_input` attaches to an unparsable line:
`format!("input could not be parsed into desired type - {:?}", parse_err)`. -/
def invalidDataMsg (e : String) : String :=
  "input could not be parsed into desired type - " ++ e

/-- The `for line in lines` loop of `read_line_input`: parse each line in
order, stopping at the first parse failure. -/
def readLinesAux {α : Type} (parse : List Char → Except String α) :
    List (List Char) → Except IOError (List α)
  | [] => .ok []
  | l :: rest =>
    match parse l with
    | .error e => .error (.invalidData (invalidDataMsg e))
    | .ok v =>
      match readLinesAux parse rest with
      | .error err => .error err
      | .ok vs => .ok (v :: vs)

/-- The parse error of the first unparsable line, if any; `read_line_input`
stops at exactly this line. -/
def firstParseErr {α : Type} (parse : List Char → Except String α)
    (ls : List (List Char)) : Option String :=
  ls.findSome? (fun l => match parse l with | .error e => some e | .ok _ => none)

/-- src/utils/src/input_read.rs `read_line_input` (day1's private
`input_parser::read_input_file` is byte-for-byte the same function): open the
file (`NotFound` if missing), read it as lines, parse every line. -/
def read_line_input {α : Type} (parse : List Char → Except String α) (fs : FS)
    (path : String) : Except IOError (List α) :=
  match fs path with
  | none => .error .notFound
  | some content => readLinesAux parse (rustLines content)

/-- src/utils/src/input_read.rs `read_to_string`. -/
def read_to_string (fs : FS) (path : String) : Except IOError (List Char) :=
  match fs path with
  | none => .error .notFound
  | some content => .ok content

/-- src/utils/src/input_read.rs `read_into_string_groups`: the file contents
split on blank lines. -/
def read_into_string_groups (fs : FS) (path : String) :
    Except IOError (List (List Char)) :=
  match fs path with
  | none => .error .notFound
  | some content => .ok (splitBlankLine content)

end AoC2020.Utils

namespace AoC2020.Day1

/-- src/day1/src/main.rs `part1`: product of the first pair of entries (in
`tuple_combinations` order) summing to 2020. -/
def part1 (input : List Nat) : Option Nat :=
  ((pairsOf input).find? (fun p => p.1 + p.2 = 2020)).map (fun p => p.1 * p.2)

/-- src/day1/src/main.rs `part2`: product of the first triple summing
to 2020. -/
def part2 (input : List Nat) : Option Nat :=
  ((triplesOf input).find? (fun t => t.1 + t.2.1 + t.2.2 = 2020)).map
    (fun t => t.1 * t.2.1 * t.2.2)

/-- src/day1/src/main.rs `main`.  Note the source prints the *part 2* result
with the line `println!("Part 1 result is {}", part2_result)`: the second
line is labelled `Part 1` as well. -/
def main (fs : FS) : Run :=
  match Utils.read_line_input parse_usizeE fs "input" with
  | .error _ => .aborted
  | .ok input =>
    match part1 input with
    | none => .aborted
    | some r1 =>
      match part2 input with
      | none => .aborted
      | some r2 =>
        .done ["Part 1 result is " ++ toString r1,
               "Part 1 result is " ++ toString r2]

end AoC2020.Day1

namespace AoC2020.Day9

/-- src/day9/src/main.rs `const PART1_WINDOW_SIZE: usize = 25;` -/
def PART1_WINDOW_SIZE : Nat := 25

/-- src/day9/src/main.rs `is_valid`: some pair of preamble entries sums to
`value`. -/
def is_valid (preamble : List Nat) (value : Nat) : Bool :=
  (pairsOf preamble).any (fun p => p.1 + p.2 = value)

/-- src/day9/src/main.rs `part1`: the first entry (skipping the initial
window) that is not the sum of a pair from the preceding window. -/
def part1 (input : List Nat) (window : Nat) : Option Nat :=
  (input.enum.drop window).findSome? (fun p =>
    if ¬ is_valid ((input.drop (p.1 - window)).take (p.1 - (p.1 - window))) p.2
    then some p.2 else none)

/-- The running-total loop of src/day9/src/main.rs `check_slice`. -/
def check_slice_aux (target : Nat) : List Nat → Nat → List Nat → Option (List Nat)
  | [], _, _ => none
  | v :: rest, total, used =>
    let t := total + v
    let u := used ++ [v]
    if t = target then some u
    else if t > target then none
    else check_slice_aux target rest t u

/-- src/day9/src/main.rs `check_slice`. -/
def check_slice (slice : List Nat) (target : Nat) : Option (List Nat) :=
  check_slice_aux target slice 0 []

/-- src/day9/src/main.rs `part2`: find the first contiguous run summing to
the part1 answer and return min + max of that run. -/
def part2 (input : List Nat) (window : Nat) : Option Nat := do
  let invalid ← part1 input window
  match (List.range input.length).findSome?
      (fun i => check_slice (input.drop i) invalid) with
  | none => none
  | some set => do
    let mn ← set.min?
    let mx ← set.max?
    some (mn + mx)

/-- src/day9/src/main.rs `main`. -/
def main (fs : FS) : Run :=
  match Utils.read_line_input parse_usizeE fs "input" with
  | .error _ => .aborted
  | .ok input =>
    match part1 input PART1_WINDOW_SIZE with
    | none => .aborted
    | some r1 =>
      match part2 input PART1_WINDOW_SIZE with
      | none => .aborted
      | some r2 =>
        .done ["Part 1 result is " ++ toString r1,
               "Part 2 result is " ++ toString r2]

end AoC2020.Day9

namespace AoC2020.Day5

/-- src/day5/src/main.rs `main`: day5 reads `Vec<String>` (the `String`
`FromStr` never fails), prints the two result lines, and aborts if either
part returns `None`.  Stderr output from `part2` is not part of the stdout
lines. -/
def main (fs : FS) : Run :=
  match Utils.read_line_input (fun l => (Except.ok l : Except String (List Char))) fs "input" with
  | .error _ => .aborted
  | .ok input =>
    match part1 input with
    | none => .aborted
    | some r1 =>
      match (part2 input).1 with
      | none => .aborted
      | some r2 =>
        .done ["Part 1 result is " ++ toString r1,
               "Part 2 result is " ++ toString r2]

end AoC2020.Day5

namespace AoC2020.Day13

/-- src/day13/src/main.rs `split_into_timestamp_and_buses`: two
whitespace-separated fields (`assert_eq!(2, split.len())`), the first a
timestamp, the second a comma-separated list where each entry is parsed by
`Bus::new` (`None` for entries like `"x"`). -/
def split_into_timestamp_and_buses (input : List Char) :
    Option (Nat × List (Option Nat)) :=
  match splitAsciiWS input with
  | [a, b] =>
    (parse_usize a).map (fun t => (t, (splitOnP (· = ',') b).map parse_usize))
  | _ => none

/-- src/day13/src/main.rs `Bus::earliest_departure_from`.  (For `id = 0` the
source would panic on division by zero; `Nat` division returns 0 there - no
claim touches a zero bus id.) -/
def earliest_departure_from (id timestamp : Nat) : Nat :=
  let quo := timestamp / id
  let rem := timestamp % id
  let n := if rem ≠ 0 then quo + 1 else quo
  id * n

/-- `Iterator::min_by` comparing the second component: the fold keeps the
current minimum and only replaces it on a strictly smaller element, so the
first minimum wins. -/
def min_by_departure (l : List (Nat × Nat)) : Option (Nat × Nat) :=
  match l with
  | [] => none
  | x :: xs => some (xs.foldl (fun acc y => if acc.2 > y.2 then y else acc) x)

/-- src/day13/src/main.rs `part1`. -/
def part1 (input : List Char) : Option Nat := do
  let (timestamp, buses) ← split_into_timestamp_and_buses input
  let deps := (buses.filterMap (fun b => b)).map
    (fun id => (id, earliest_departure_from id timestamp))
  let (id, departure) ← min_by_departure deps
  some (id * (departure - timestamp))

/-- Recursion kernel of `egcd`, structurally recursive on a fuel that the
wrapper instantiates with `a.natAbs`; since `|b.tmod a| < |a|` for `a ≠ 0`,
the fuel never runs out and `egcd` satisfies exactly the source recurrence
(`egcd_zero` / `egcd_rec` below).  The fuel-0 fallback coincides with the
`a == 0` base case. -/
def egcdAux : Nat → Int → Int → Int × Int × Int
  | 0, _, b => (b, 0, 1)
  | n + 1, a, b =>
    if a = 0 then (b, 0, 1)
    else
      let r := egcdAux n (b.tmod a) a
      (r.1, r.2.2 - (b.tdiv a) * r.2.1, r.2.1)

/-- src/day13/src/main.rs `egcd` (adapted by the source from rosettacode):
extended Euclid on `isize`, with Rust `%`/`/` = `Int.tmod`/`Int.tdiv`:
`egcd 0 b = (b, 0, 1)` and otherwise
`egcd a b = (g, y - (b / a) * x, x)` where `(g, x, y) = egcd (b % a) a`. -/
def egcd (a b : Int) : Int × Int × Int :=
  egcdAux a.natAbs a b

/-- src/day13/src/main.rs `mod_inv`. -/
def mod_inv (x n : Int) : Option Int :=
  let r := egcd x n
  if r.1 = 1 then some (((r.2.1).tmod n + n).tmod n) else none

/-- The accumulation loop of src/day13/src/main.rs `crt` (`zip` stops at the
shorter list; the `?` on `mod_inv` aborts the whole computation). -/
def crtSum (prod : Int) : List Int → List Int → Option Int
  | r :: rs, m :: ms => do
    let inv ← mod_inv (prod.tdiv m) m
    let rest ← crtSum prod rs ms
    some (r * inv * (prod.tdiv m) + rest)
  | _, _ => some 0

/-- src/day13/src/main.rs `crt`. -/
def crt (residues modulii : List Int) : Option Int :=
  let prod := modulii.prod
  (crtSum prod residues modulii).map (fun s => s.tmod prod)

/-- Rust `as usize` on an `isize`: two's complement reinterpretation, i.e.
the value modulo `2^64`. -/
def as_usize (x : Int) : Nat := (x.emod (2 ^ 64)).toNat

/-- The per-bus congruence of `part2`'s `filter_map`: a listed bus with id
`id` at zero-based position `i` becomes the pair
`(id as isize, (id as isize - i as isize) % id as isize)`. -/
def busPair (p : Nat × Option Nat) : Option (Int × Int) :=
  p.2.map (fun (id : Nat) => ((id : Int), ((id : Int) - (p.1 : Int)).tmod (id : Int)))

/-- src/day13/src/main.rs `part2`: one congruence per listed bus, residue
`(id - i) % id` at zero-based position `i`, solved by `crt`; the `isize`
result is returned `as usize`. -/
def part2 (input : List Char) : Option Nat := do
  let (_, buses) ← split_into_timestamp_and_buses input
  let pairs := buses.enum.filterMap busPair
  let modulii := pairs.map Prod.fst
  let residues := pairs.map Prod.snd
  let x ← crt residues modulii
  some (as_usize x)

/-- src/day13/src/main.rs `main`. -/
def main (fs : FS) : Run :=
  match Utils.read_to_string fs "input" with
  | .error _ => .aborted
  | .ok content =>
    match part1 content with
    | none => .aborted
    | some r1 =>
      match part2 content with
      | none => .aborted
      | some r2 =>
        .done ["Part 1 result is " ++ toString r1,
               "Part 2 result is " ++ toString r2]

end AoC2020.Day13

namespace AoC2020.Day22

/-- src/day22/src/main.rs `impl From<&String> for Player`: skip the
`"Player N:"` line, parse every remaining line as a card. -/
def player_from (raw : List Char) : Option (List Nat) :=
  ((rustLines raw).drop 1).mapM parse_usize

/-- src/day22/src/main.rs `Player::play_round` (ordinary Combat): returns
the finished-game result, if any, plus both decks after the round.  The
deck head is the top card. -/
def play_round (d1 d2 : List Nat) : Option Bool × List Nat × List Nat :=
  match d1, d2 with
  | [], d2 => (some false, [], d2)
  | d1, [] => (some true, d1, [])
  | c1 :: r1, c2 :: r2 =>
    if c1 > c2 then (none, r1 ++ [c1, c2], r2)
    else (none, r1, r2 ++ [c2, c1])

/-- The `loop` of src/day22/src/main.rs `part1`.  The source loop has no
bound (ordinary Combat can cycle forever), so the embedding takes fuel;
`none` means the game is still running after `fuel` rounds. -/
def combat_loop (fuel : Nat) (d1 d2 : List Nat) : Option (Bool × List Nat × List Nat) :=
  match fuel with
  | 0 => none
  | fuel + 1 =>
    match play_round d1 d2 with
    | (some res, e1, e2) => some (res, e1, e2)
    | (none, e1, e2) => combat_loop fuel e1 e2

/-- src/day22/src/main.rs `Player::calculate_final_score`. -/
def calculate_final_score (d : List Nat) : Nat :=
  ((d.reverse.enum).map (fun p => (p.1 + 1) * p.2)).sum

/-- src/day22/src/main.rs `part1`. -/
def part1 (fuel : Nat) (input : List (List Char)) : Option Nat := do
  let g1 ← input[0]?
  let g2 ← input[1]?
  let d1 ← player_from g1
  let d2 ← player_from g2
  let (res, e1, e2) ← combat_loop fuel d1 d2
  some (if res then calculate_final_score e1 else calculate_final_score e2)

/-- src/day22/src/main.rs `RecursiveGame`: the two decks plus the
`previously_played` set of deck configurations.  The source uses a
`HashSet`; since a configuration is only ever inserted after a failed
membership test, a duplicate-free list is an exact model. -/
structure RGState where
  p1 : List Nat
  p2 : List Nat
  seen : List (List Nat × List Nat)
deriving DecidableEq, Repr

/-- src/day22/src/main.rs `RecursiveGame::play` / `play_round` fused: each
fuel step is one round.  Returns which player won together with the final
state.  A sub-game (`played1 <= cards_left && played2 <= cards_left`) starts
from the top `played1`/`played2` cards of the remainders with an empty
`previously_played` set; a repeated configuration ends the game in player 1's
favour before any card is dealt. -/
def recPlay : Nat → RGState → Option (Bool × RGState)
  | 0, _ => none
  | fuel + 1, st =>
    match st.p1, st.p2 with
    | [], _ => some (false, st)
    | _, [] => some (true, st)
    | c1 :: r1, c2 :: r2 =>
      if (c1 :: r1, c2 :: r2) ∈ st.seen then some (true, st)
      else
        let seen2 := (c1 :: r1, c2 :: r2) :: st.seen
        if c1 ≤ r1.length ∧ c2 ≤ r2.length then
          match recPlay fuel ⟨r1.take c1, r2.take c2, []⟩ with
          | none => none
          | some (true, _) => recPlay fuel ⟨r1 ++ [c1, c2], r2, seen2⟩
          | some (false, _) => recPlay fuel ⟨r1, r2 ++ [c2, c1], seen2⟩
        else
          if c1 > c2 then recPlay fuel ⟨r1 ++ [c1, c2], r2, seen2⟩
          else recPlay fuel ⟨r1, r2 ++ [c2, c1], seen2⟩

/-- Verification artifact (not from the source): the finite set of all deck
configurations over the multiset of a card list `L` - every pair of decks
whose concatenation is a permutation of `L`.  Used to bound the
`previously_played` set in the termination proof of the recursive game. -/
def allConfigs (L : List Nat) : Finset (List Nat × List Nat) :=
  (L.permutations.flatMap
    (fun p => (List.range (p.length + 1)).map (fun k => (p.take k, p.drop k)))).toFinset

/-- src/day22/src/main.rs `part2`. -/
def part2 (fuel : Nat) (input : List (List Char)) : Option Nat := do
  let g1 ← input[0]?
  let g2 ← input[1]?
  let d1 ← player_from g1
  let d2 ← player_from g2
  let (res, fin) ← recPlay fuel ⟨d1, d2, []⟩
  some (if res then calculate_final_score fin.p1 else calculate_final_score fin.p2)

/-- src/day22/src/main.rs `main`.  A `none` from a part (a panic in the
source, or exhausted fuel in the embedding) is collapsed to `aborted`; no
theorem depends on that case. -/
def main (fuel : Nat) (fs : FS) : Run :=
  match Utils.read_into_string_groups fs "input" with
  | .error _ => .aborted
  | .ok groups =>
    match part1 fuel groups, part2 fuel groups with
    | some r1, some r2 =>
      .done ["Part 1 result is " ++ toString r1,
             "Part 2 result is " ++ toString r2]
    | _, _ => .aborted

end AoC2020.Day22

namespace AoC2020.Day24

/-- day17's `Point` restricted to the three dimensions day24 uses
(`Point::base(3)` plus `(isize, isize, isize)` offsets). -/
abbrev Hex : Type := Int × Int × Int

/-- The six direction constants of src/day24/src/main.rs, in the order of
`Hexagon::adjacent_hexes`: E, SE, SW, W, NW, NE. -/
def directions : List Hex :=
  [(1, -1, 0), (0, -1, 1), (-1, 0, 1), (-1, 1, 0), (0, 1, -1), (1, 0, -1)]

/-- `impl Add<(isize, isize, isize)> for &Point`: componentwise addition. -/
def hexAdd (p q : Hex) : Hex := (p.1 + q.1, p.2.1 + q.2.1, p.2.2 + q.2.2)

/-- src/day24/src/main.rs `Hexagon::adjacent_hexes`. -/
def adjacent_hexes (h : Hex) : List Hex := directions.map (hexAdd h)

/-- The `active_neighbours` count inside `simulate_step_par`:
`neighbours.map(contains).filter(|is_active| *is_active).count()`. -/
def activeNeighbours (active : Finset Hex) (h : Hex) : Nat :=
  (((adjacent_hexes h).map (fun n => decide (n ∈ active))).filter (fun b => b)).length

/-- The count the `all_adjacents` HashMap of `simulate_step_par` holds for a
cell `c` after the accumulation loop: one increment per active cell that
lists `c` among its six (pairwise distinct) neighbours. -/
def all_adjacents_count (active : Finset Hex) (c : Hex) : Nat :=
  (active.filter (fun a => c ∈ adjacent_hexes a)).card

/-- src/day24/src/main.rs `simulate_step_par`: denotation of the
rayon-parallel step.  The first phase removes every active hex whose
neighbour count (taken against the unmodified snapshot) is 0 or more than 2;
the second phase inserts every cell whose `all_adjacents` count is exactly 2.
The parallel iteration only reads the snapshot and collects into a vector,
so this set is its result under every thread interleaving. -/
def simulate_step_par (active : Finset Hex) : Finset Hex :=
  (active.filter
      (fun h => ¬ (activeNeighbours active h = 0 ∨ 2 < activeNeighbours active h)))
    ∪ ((active.biUnion (fun a => (adjacent_hexes a).toFinset)).filter
        (fun c => all_adjacents_count active c = 2))

end AoC2020.Day24

namespace AoC2020.Day17

/-- src/day17/src/main.rs `part1` - the day is unfinished.  The body parses
the grid (`parse_initial_data`, which panics via `Cube::from` on any
character other than `'.'` or `'#'`), prints one debug line
(`println!("{:?}", data.space_range())`) to stdout, and returns the literal
`0`; the simulation (`simulate_step`) is an empty stub and `part2` is
commented out.  The embedding keeps the returned value and the panic
condition. -/
def part1 (input : List (List Char)) : Option Nat :=
  if input.all (fun l => l.all (fun c => c = '.' || c = '#')) then some 0 else none

end AoC2020.Day17

-- ===================================================================
-- Theorems
-- ===================================================================

namespace AoC2020.Day25

theorem mod_pow_loop_eq (base result exp modulus : Nat) :
    mod_pow_loop base result exp modulus =
      if exp = 0 then result
      else
        mod_pow_loop (base * base % USIZE % modulus)
          (if exp % 2 = 1 then result * base % USIZE % modulus else result)
          (exp / 2) modulus := by
  rw [mod_pow_loop]

/-- Pulling inner remainders out of a product-of-powers remainder. -/
theorem mod_mul_pow_mod (m r b e : Nat) :
    (r % m) * ((b % m) ^ e) % m = r * b ^ e % m := by
  rw [Nat.mul_mod, Nat.mod_mod_of_dvd r (dvd_refl m), ← Nat.pow_mod, ← Nat.mul_mod]

theorem mod_pow_loop_correct (modulus : Nat) (h2 : 2 ≤ modulus)
    (hnov : (modulus - 1) * (modulus - 1) < USIZE) :
    ∀ exp base result, base < modulus → result < modulus →
      mod_pow_loop base result exp modulus = result * base ^ exp % modulus := by
  intro exp
  induction exp using Nat.strong_induction_on with
  | _ exp IH =>
    intro base result hb hr
    rw [mod_pow_loop_eq]
    rcases Nat.eq_zero_or_pos exp with hz | hpos
    · simp [hz, Nat.mod_eq_of_lt hr]
    · have hez : ¬ exp = 0 := Nat.pos_iff_ne_zero.mp hpos
      have hmpos : 0 < modulus := by omega
      -- the wrapping multiplications never actually wrap
      have hmul : ∀ x y : Nat, x < modulus → y < modulus → x * y % USIZE = x * y := by
        intro x y hx hy
        have : x * y ≤ (modulus - 1) * (modulus - 1) :=
          Nat.mul_le_mul (by omega) (by omega)
        exact Nat.mod_eq_of_lt (lt_of_le_of_lt this hnov)
      have hbase : base * base % USIZE % modulus = base * base % modulus := by
        rw [hmul base base hb hb]
      have hhalf : exp / 2 < exp := Nat.div_lt_self hpos one_lt_two
      have hb2 : base * base % modulus < modulus := Nat.mod_lt _ hmpos
      have hsplit : base ^ exp = base ^ (2 * (exp / 2) + exp % 2) := by
        rw [Nat.div_add_mod]
      rw [if_neg hez]
      by_cases hodd : exp % 2 = 1
      · have hres : result * base % USIZE % modulus = result * base % modulus := by
          rw [hmul result base hr hb]
        have hr2 : result * base % modulus < modulus := Nat.mod_lt _ hmpos
        rw [if_pos hodd, hbase, hres]
        rw [IH (exp / 2) hhalf _ _ hb2 hr2]
        rw [mod_mul_pow_mod]
        congr 1
        rw [hsplit, hodd, pow_add, pow_mul, pow_one, pow_two]
        ring
      · rw [if_neg hodd, hbase]
        rw [IH (exp / 2) hhalf _ _ hb2 hr]
        conv_lhs => rw [← Nat.mod_eq_of_lt hr]
        rw [mod_mul_pow_mod]
        congr 1
        have h0 : exp % 2 = 0 := by omega
        rw [hsplit, h0, pow_add, pow_mul, pow_zero, pow_two]
        ring

/-- `mod_pow` computes modular exponentiation exactly for every modulus ≥ 1,
under the no-overflow precondition. -/
theorem mod_pow_correct (base exp modulus : Nat) (h1 : 1 ≤ modulus)
    (hnov : (modulus - 1) * (modulus - 1) < USIZE) :
    mod_pow base exp modulus = base ^ exp % modulus := by
  unfold mod_pow
  by_cases hm1 : modulus = 1
  · simp [hm1, Nat.mod_one]
  · have h2 : 2 ≤ modulus := by omega
    rw [if_neg hm1]
    rw [mod_pow_loop_correct modulus h2 hnov exp (base % modulus) 1
      (Nat.mod_lt _ (by omega)) (by omega)]
    rw [one_mul, ← Nat.pow_mod]

/-- C8: day25's `mod_pow` computes modular exponentiation exactly for every
`modulus ≥ 1` under the no-overflow precondition that
`(modulus - 1) * (modulus - 1)` fits in a 64-bit `usize`; in particular
`mod_pow base exp 1 = 0` and `mod_pow base 0 m = 1` for `m > 1`, and the
Diffie-Hellman-ish exchange of day25 commutes. -/
theorem mod_pow_exact_and_dh_commutes (base exp modulus : Nat) (h1 : 1 ≤ modulus)
    (hnov : (modulus - 1) * (modulus - 1) < USIZE) :
    mod_pow base exp modulus = base ^ exp % modulus ∧
    mod_pow base exp 1 = 0 ∧
    (1 < modulus → mod_pow base 0 modulus = 1) ∧
    ∀ s1 s2 : Nat,
      diffie_hellman_ish_thing s1 (derive_public_key s2) =
        diffie_hellman_ish_thing s2 (derive_public_key s1) := by
  have hO1 : 1 ≤ ORDER := by norm_num [ORDER]
  have hOnov : (ORDER - 1) * (ORDER - 1) < USIZE := by norm_num [ORDER, USIZE]
  refine ⟨mod_pow_correct base exp modulus h1 hnov, ?_, ?_, ?_⟩
  · simp [mod_pow]
  · intro hm2
    rw [mod_pow_correct base 0 modulus h1 hnov, pow_zero, Nat.mod_eq_of_lt hm2]
  · intro s1 s2
    unfold diffie_hellman_ish_thing derive_public_key
    rw [mod_pow_correct (mod_pow GENERATOR s2 ORDER) s1 ORDER hO1 hOnov,
      mod_pow_correct (mod_pow GENERATOR s1 ORDER) s2 ORDER hO1 hOnov,
      mod_pow_correct GENERATOR s2 ORDER hO1 hOnov,
      mod_pow_correct GENERATOR s1 ORDER hO1 hOnov]
    rw [← Nat.pow_mod, ← Nat.pow_mod, ← pow_mul, ← pow_mul, mul_comm]

/-- Witness for C8 at the concrete input of day25's unit test
`public_key_derivation`: `derive_public_key(8) = 5764801`. -/
theorem mod_pow_exact_and_dh_commutes_witness :
    1 ≤ 20201227 ∧ (20201227 - 1) * (20201227 - 1) < USIZE ∧
      mod_pow 7 8 20201227 = 5764801 := by
  refine ⟨by norm_num, by norm_num [USIZE], ?_⟩
  have h := (mod_pow_exact_and_dh_commutes 7 8 20201227 (by norm_num)
    (by norm_num [USIZE])).1
  rw [h]; norm_num

end AoC2020.Day25
namespace AoC2020.Day5

theorem bitsAux_isSome_iff (high low : Char) :
    ∀ (l : List (Nat × Char)) (acc : Nat),
      (bitsAux high low l acc).isSome ↔ ∀ p ∈ l, p.2 = high ∨ p.2 = low := by
  intro l
  induction l with
  | nil => intro acc; simp [bitsAux]
  | cons hd tl IH =>
    intro acc
    obtain ⟨i, c⟩ := hd
    simp only [bitsAux]
    by_cases h1 : c = high
    · rw [if_pos h1, IH]
      constructor
      · intro h p hp
        rcases List.mem_cons.mp hp with rfl | hp2
        · exact Or.inl h1
        · exact h p hp2
      · intro h p hp
        exact h p (List.mem_cons_of_mem _ hp)
    · rw [if_neg h1]
      by_cases h2 : c = low
      · rw [if_neg (show ¬ c ≠ low by simp [h2]), IH]
        constructor
        · intro h p hp
          rcases List.mem_cons.mp hp with rfl | hp2
          · exact Or.inr h2
          · exact h p hp2
        · intro h p hp
          exact h p (List.mem_cons_of_mem _ hp)
      · rw [if_pos (show c ≠ low from h2)]
        refine iff_of_false (by simp) ?_
        intro hall
        rcases hall (i, c) (List.mem_cons_self _ _) with h | h <;> simp_all

theorem bitsAux_bound (high low : Char) (n : Nat) :
    ∀ (l : List (Nat × Char)) (acc : Nat), (∀ p ∈ l, p.1 < n) → acc < 2 ^ n →
      ∀ v, bitsAux high low l acc = some v → v < 2 ^ n := by
  intro l
  induction l with
  | nil =>
    intro acc _ hacc v hv
    simp only [bitsAux, Option.some.injEq] at hv
    omega
  | cons hd tl IH =>
    intro acc hidx hacc v hv
    obtain ⟨i, c⟩ := hd
    simp only [bitsAux] at hv
    have htl : ∀ p ∈ tl, p.1 < n := fun p hp => hidx p (List.mem_cons_of_mem _ hp)
    by_cases h1 : c = high
    · rw [if_pos h1] at hv
      have hi : i < n := hidx (i, c) (List.mem_cons_self _ _)
      have hsh : (1 <<< i) < 2 ^ n := by
        rw [Nat.shiftLeft_eq, one_mul]
        exact Nat.pow_lt_pow_right one_lt_two hi
      exact IH _ htl (Nat.or_lt_two_pow hacc hsh) v hv
    · rw [if_neg h1] at hv
      by_cases h2 : c = low
      · rw [if_neg (by simp [h2])] at hv
        exact IH _ htl hacc v hv
      · rw [if_pos (by simp [h2])] at hv
        exact absurd hv (by simp)

theorem enum_fst_lt {α : Type} {l : List α} {p : Nat × α} (hp : p ∈ l.enum) :
    p.1 < l.length := by
  have h := List.mem_enum_iff_get?.mp hp
  exact (List.get?_eq_some.mp h).1

theorem enum_snd_mem {α : Type} {l : List α} {p : Nat × α} (hp : p ∈ l.enum) :
    p.2 ∈ l := by
  have h := List.mem_enum_iff_get?.mp hp
  exact List.get?_mem h

theorem bitFold_isSome_iff (high low : Char) (raw : List Char) :
    (bitFold high low raw).isSome ↔ ∀ c ∈ raw, c = high ∨ c = low := by
  unfold bitFold
  rw [bitsAux_isSome_iff]
  constructor
  · intro h c hc
    obtain ⟨i, hi⟩ := List.mem_iff_get?.mp (List.mem_reverse.mpr hc)
    exact h (i, c) (List.mem_enum_iff_get?.mpr hi)
  · intro h p hp
    exact h p.2 (List.mem_reverse.mp (enum_snd_mem hp))

theorem bitFold_bound (high low : Char) (raw : List Char) (n : Nat)
    (hlen : raw.length ≤ n) :
    ∀ v, bitFold high low raw = some v → v < 2 ^ n := by
  unfold bitFold
  refine bitsAux_bound high low n _ 0 ?_ (Nat.pos_pow_of_pos n (by norm_num)) 
  intro p hp
  have := enum_fst_lt hp
  rw [List.length_reverse] at this
  omega

theorem byteLen_eq_length_of_ascii : ∀ {v : List Char}, isAscii v → byteLen v = v.length := by
  intro v
  induction v with
  | nil => intro _; rfl
  | cons c cs IH =>
    intro h
    simp only [isAscii, List.all_cons, Bool.and_eq_true, decide_eq_true_eq] at h
    have hlen : utf8Len c = 1 := by
      unfold utf8Len
      rw [if_pos h.1]
    have htail : byteLen cs = cs.length := IH h.2
    simp only [byteLen, List.map_cons, List.sum_cons, List.length_cons]
    simp only [byteLen] at htail
    omega

/-- C10: day5's `Seat::try_from` accepts exactly the well-formed boarding
passes - ascii, 10 characters, first seven each `'B'`/`'F'`, last three each
`'R'`/`'L'` - and every accepted seat has `row ≤ 127`, `column ≤ 7` and
`id = row * 8 + column ≤ 1023`. -/
theorem try_from_spec (v : List Char) :
    ((try_from v).isSome ↔
      (isAscii v ∧ v.length = 10 ∧
       (∀ c ∈ v.take 7, c = 'B' ∨ c = 'F') ∧
       (∀ c ∈ v.drop 7, c = 'R' ∨ c = 'L'))) ∧
    (∀ s, try_from v = some s →
      s.row ≤ 127 ∧ s.column ≤ 7 ∧ s.id = s.row * 8 + s.column ∧ s.id ≤ 1023) := by
  unfold try_from
  by_cases hguard : ¬ isAscii v ∨ byteLen v ≠ 10
  · rw [if_pos hguard]
    constructor
    · refine iff_of_false (by simp) ?_
      rintro ⟨ha, hl, -, -⟩
      rcases hguard with h | h
      · exact h ha
      · exact h (by rw [byteLen_eq_length_of_ascii ha, hl])
    · intro s hs
      exact absurd hs (by simp)
  · rw [if_neg hguard]
    push_neg at hguard
    obtain ⟨ha, hbl⟩ := hguard
    have hlen : v.length = 10 := by rw [← byteLen_eq_length_of_ascii ha, hbl]
    constructor
    · cases hrow : bitFold 'B' 'F' (v.take 7) with
      | none =>
        refine iff_of_false (by simp) ?_
        rintro ⟨-, -, hbf, -⟩
        have := (bitFold_isSome_iff 'B' 'F' (v.take 7)).mpr hbf
        rw [hrow] at this
        exact absurd this (by simp)
      | some row =>
        cases hcol : bitFold 'R' 'L' (v.drop 7) with
        | none =>
          refine iff_of_false (by simp) ?_
          rintro ⟨-, -, -, hrl⟩
          have := (bitFold_isSome_iff 'R' 'L' (v.drop 7)).mpr hrl
          rw [hcol] at this
          exact absurd this (by simp)
        | some col =>
          refine iff_of_true (by simp) ?_
          refine ⟨ha, hlen, ?_, ?_⟩
          · exact (bitFold_isSome_iff 'B' 'F' (v.take 7)).mp (by rw [hrow]; simp)
          · exact (bitFold_isSome_iff 'R' 'L' (v.drop 7)).mp (by rw [hcol]; simp)
    · intro s hs
      cases hrow : bitFold 'B' 'F' (v.take 7) with
      | none =>
        rw [hrow] at hs
        simp at hs
      | some row =>
        cases hcol : bitFold 'R' 'L' (v.drop 7) with
        | none =>
          rw [hrow, hcol] at hs
          simp at hs
        | some col =>
          rw [hrow, hcol] at hs
          have hs2 : Seat.mk row col = s := by simpa using hs
          have hrb : row < 128 := by
            have := bitFold_bound 'B' 'F' (v.take 7) 7 (by simp) row hrow
            norm_num at this
            exact this
          have hcb : col < 8 := by
            have := bitFold_bound 'R' 'L' (v.drop 7) 3 (by simp [hlen]) col hcol
            norm_num at this
            exact this
          subst hs2
          refine ⟨?_, ?_, rfl, ?_⟩
          · show row ≤ 127
            omega
          · show col ≤ 7
            omega
          · show row * 8 + col ≤ 1023
            omega

/-- Witness for C10 at the first seat of day5's `seat_parsing` unit test:
`"BFFFBBFRRR"` decodes to row 70, column 7, id 567. -/
theorem try_from_spec_witness :
    try_from ("BFFFBBFRRR".toList) = some ⟨70, 7⟩ ∧
      ((70 : Nat) ≤ 127 ∧ (7 : Nat) ≤ 7 ∧
        (Seat.mk 70 7).id = 70 * 8 + 7 ∧ (Seat.mk 70 7).id ≤ 1023) := by
  have h := (try_from_spec ("BFFFBBFRRR".toList)).2 ⟨70, 7⟩ (by decide)
  exact ⟨by decide, h.1, h.2.1, h.2.2.1, h.2.2.2⟩

end AoC2020.Day5
namespace AoC2020.Day13

theorem tmod_emod (a b : Int) : (a.tmod b) % b = a % b := by
  rw [Int.tmod_def, sub_eq_add_neg, ← mul_neg, Int.add_mul_emod_self_left]

end AoC2020.Day13

namespace AoC2020

/-- C4 (code_bug evidence): the recorded sample expectations of day1, day13
and day22 hold exactly, but day17's `part1` returns 0 on the sample grid of
its own `part1_sample_input` test, whose recorded expectation is 112 - the
unfinished day17 contradicts its own test suite.  (The fuel arguments 500 and
300 bound the Combat/recursive-game rounds; both games finish well within
them, as the equations prove.) -/
theorem sample_tests_match_except_day17 :
    Day1.part1 [1721, 979, 366, 299, 675, 1456] = some 514579 ∧
    Day13.part1 ("939\n7,13,x,x,59,x,31,19".toList) = some 295 ∧
    Day22.part1 500 ["Player 1:\n9\n2\n6\n3\n1".toList,
      "Player 2:\n5\n8\n4\n7\n10".toList] = some 306 ∧
    Day22.part2 300 ["Player 1:\n9\n2\n6\n3\n1".toList,
      "Player 2:\n5\n8\n4\n7\n10".toList] = some 291 ∧
    Day17.part1 [".#.".toList, "..#".toList, "###".toList] = some 0 ∧
    (0 : Nat) ≠ 112 := by
  refine ⟨by decide, by decide, ?_, ?_, by decide, by decide⟩
  · set_option maxHeartbeats 2000000 in decide
  · set_option maxHeartbeats 4000000 in decide

end AoC2020

namespace AoC2020.Day24

theorem adjacent_symm (a c : Hex) : a ∈ adjacent_hexes c ↔ c ∈ adjacent_hexes a := by
  obtain ⟨a1, a2, a3⟩ := a
  obtain ⟨c1, c2, c3⟩ := c
  simp [adjacent_hexes, directions, hexAdd, Prod.ext_iff]
  constructor
  · intro h
    rcases h with h|h|h|h|h|h <;> omega
  · intro h
    rcases h with h|h|h|h|h|h <;> omega

theorem adjacent_nodup (h : Hex) : (adjacent_hexes h).Nodup := by
  obtain ⟨h1, h2, h3⟩ := h
  simp [adjacent_hexes, directions, hexAdd, Prod.ext_iff]

theorem activeNeighbours_eq_length (active : Finset Hex) (h : Hex) :
    activeNeighbours active h =
      ((adjacent_hexes h).filter (fun n => decide (n ∈ active))).length := by
  unfold activeNeighbours
  rw [List.filter_map]
  simp only [Function.comp_def]
  rw [List.length_map]

theorem activeNeighbours_eq_card (active : Finset Hex) (c : Hex) :
    activeNeighbours active c = ((adjacent_hexes c).toFinset ∩ active).card := by
  rw [activeNeighbours_eq_length]
  have hnd : ((adjacent_hexes c).filter (fun n => decide (n ∈ active))).Nodup :=
    (adjacent_nodup c).filter _
  rw [← List.toFinset_card_of_nodup hnd, List.toFinset_filter]
  congr 1
  have h2 : (adjacent_hexes c).toFinset.filter (fun x => decide (x ∈ active) = true) =
      (adjacent_hexes c).toFinset.filter (fun x => x ∈ active) :=
    Finset.filter_congr (by intro x _; simp)
  rw [h2, Finset.filter_mem_eq_inter]

theorem all_adjacents_count_eq (active : Finset Hex) (c : Hex) :
    all_adjacents_count active c = activeNeighbours active c := by
  unfold all_adjacents_count
  rw [activeNeighbours_eq_card]
  have h1 : active.filter (fun a => c ∈ adjacent_hexes a) =
      active.filter (fun a => a ∈ (adjacent_hexes c).toFinset) := by
    apply Finset.filter_congr
    intro a _
    rw [List.mem_toFinset]
    exact (adjacent_symm a c).symm
  rw [h1, Finset.filter_mem_eq_inter, Finset.inter_comm]

/-- C5: day24's parallel step computes exactly the sequential rule - a cell
is in the resulting set iff it was active with exactly 1 or 2 active
neighbours, or inactive with exactly 2 active neighbours.  The rayon
iteration only reads the pre-step snapshot, so its denotation (and hence
this equality) is independent of thread interleaving. -/
theorem simulate_step_par_spec (active : Finset Hex) (c : Hex) :
    c ∈ simulate_step_par active ↔
      ((c ∈ active ∧ (activeNeighbours active c = 1 ∨ activeNeighbours active c = 2)) ∨
       (c ∉ active ∧ activeNeighbours active c = 2)) := by
  have hex : (∃ a ∈ active, c ∈ (adjacent_hexes a).toFinset) ↔
      0 < activeNeighbours active c := by
    rw [activeNeighbours_eq_card, Finset.card_pos]
    constructor
    · rintro ⟨a, ha, hc⟩
      exact ⟨a, Finset.mem_inter.mpr
        ⟨List.mem_toFinset.mpr ((adjacent_symm a c).mpr (List.mem_toFinset.mp hc)), ha⟩⟩
    · rintro ⟨a, ha⟩
      obtain ⟨h1, h2⟩ := Finset.mem_inter.mp ha
      exact ⟨a, h2, List.mem_toFinset.mpr ((adjacent_symm a c).mp (List.mem_toFinset.mp h1))⟩
  unfold simulate_step_par
  simp only [Finset.mem_union, Finset.mem_filter, Finset.mem_biUnion,
    all_adjacents_count_eq]
  constructor
  · rintro (⟨hc, hn⟩ | ⟨hmem, h2⟩)
    · left
      exact ⟨hc, by omega⟩
    · by_cases hc : c ∈ active
      · left
        exact ⟨hc, Or.inr h2⟩
      · right
        exact ⟨hc, h2⟩
  · rintro (⟨hc, h12⟩ | ⟨hc, h2⟩)
    · left
      exact ⟨hc, by omega⟩
    · right
      exact ⟨hex.mpr (by omega), h2⟩

end AoC2020.Day24

namespace AoC2020.Day22

theorem recPlay_nil1 (fuel : Nat) (d2 : List Nat) (seen : List (List Nat × List Nat)) :
    recPlay (fuel + 1) ⟨[], d2, seen⟩ = some (false, ⟨[], d2, seen⟩) := by
  simp [recPlay]

theorem recPlay_nil2 (fuel : Nat) (c1 : Nat) (r1 : List Nat)
    (seen : List (List Nat × List Nat)) :
    recPlay (fuel + 1) ⟨c1 :: r1, [], seen⟩ = some (true, ⟨c1 :: r1, [], seen⟩) := by
  simp [recPlay]

theorem recPlay_cons (fuel : Nat) (c1 c2 : Nat) (r1 r2 : List Nat)
    (seen : List (List Nat × List Nat)) :
    recPlay (fuel + 1) ⟨c1 :: r1, c2 :: r2, seen⟩ =
      (if (c1 :: r1, c2 :: r2) ∈ seen then some (true, ⟨c1 :: r1, c2 :: r2, seen⟩)
       else
         if c1 ≤ r1.length ∧ c2 ≤ r2.length then
           match recPlay fuel ⟨r1.take c1, r2.take c2, []⟩ with
           | none => none
           | some (true, _) =>
             recPlay fuel ⟨r1 ++ [c1, c2], r2, (c1 :: r1, c2 :: r2) :: seen⟩
           | some (false, _) =>
             recPlay fuel ⟨r1, r2 ++ [c2, c1], (c1 :: r1, c2 :: r2) :: seen⟩
         else if c1 > c2 then
           recPlay fuel ⟨r1 ++ [c1, c2], r2, (c1 :: r1, c2 :: r2) :: seen⟩
         else
           recPlay fuel ⟨r1, r2 ++ [c2, c1], (c1 :: r1, c2 :: r2) :: seen⟩) := by
  simp only [recPlay]

/-- `recPlay` is monotone in fuel: once the game finishes, more fuel gives
the same answer. -/
theorem recPlay_mono : ∀ (f f' : Nat) (st : RGState) (r : Bool × RGState),
    recPlay f st = some r → f ≤ f' → recPlay f' st = some r := by
  intro f
  induction f with
  | zero =>
    intro f' st r h _
    simp [recPlay] at h
  | succ f IH =>
    intro f' st r h hle
    obtain ⟨f2, rfl⟩ : ∃ f2, f' = f2 + 1 := ⟨f' - 1, by omega⟩
    have hle2 : f ≤ f2 := by omega
    obtain ⟨d1, d2, seen⟩ := st
    cases d1 with
    | nil =>
      rw [recPlay_nil1] at h ⊢
      exact h
    | cons c1 r1 =>
      cases d2 with
      | nil =>
        rw [recPlay_nil2] at h ⊢
        exact h
      | cons c2 r2 =>
        rw [recPlay_cons] at h ⊢
        by_cases hseen : (c1 :: r1, c2 :: r2) ∈ seen
        · rw [if_pos hseen] at h ⊢
          exact h
        · rw [if_neg hseen] at h ⊢
          by_cases hrec : c1 ≤ r1.length ∧ c2 ≤ r2.length
          · rw [if_pos hrec] at h ⊢
            cases hsub : recPlay f ⟨r1.take c1, r2.take c2, []⟩ with
            | none =>
              rw [hsub] at h
              simp at h
            | some rs =>
              rw [hsub] at h
              rw [IH f2 _ rs hsub hle2]
              obtain ⟨b, stf⟩ := rs
              cases b
              · exact IH f2 _ r h hle2
              · exact IH f2 _ r h hle2
          · rw [if_neg hrec] at h ⊢
            by_cases hgt : c1 > c2
            · rw [if_pos hgt] at h ⊢
              exact IH f2 _ r h hle2
            · rw [if_neg hgt] at h ⊢
              exact IH f2 _ r h hle2

theorem perm_winner (c1 c2 : Nat) (r1 r2 : List Nat) :
    ((r1 ++ [c1, c2]) ++ r2).Perm ((c1 :: r1) ++ (c2 :: r2)) := by
  have h1 : (r1 ++ [c1, c2]) ++ r2 = r1 ++ c1 :: (c2 :: r2) := by simp
  rw [h1]
  have h2 : (r1 ++ c1 :: (c2 :: r2)).Perm (c1 :: (r1 ++ c2 :: r2)) := List.perm_middle
  exact h2

theorem perm_loser (c1 c2 : Nat) (r1 r2 : List Nat) :
    (r1 ++ (r2 ++ [c2, c1])).Perm ((c1 :: r1) ++ (c2 :: r2)) := by
  have hA : ((c1 :: r1) ++ (c2 :: r2)).Perm (c1 :: c2 :: (r1 ++ r2)) := by
    show (c1 :: (r1 ++ c2 :: r2)).Perm (c1 :: c2 :: (r1 ++ r2))
    exact (List.perm_middle.symm.cons c1).symm
  have hB : (r1 ++ (r2 ++ [c2, c1])).Perm (c1 :: c2 :: (r1 ++ r2)) := by
    have s1 : (r2 ++ [c2, c1]).Perm (c2 :: c1 :: r2) := List.perm_append_comm
    have s2 : (r1 ++ (r2 ++ [c2, c1])).Perm (r1 ++ c2 :: (c1 :: r2)) := s1.append_left r1
    have s3 : (r1 ++ c2 :: (c1 :: r2)).Perm (c2 :: (r1 ++ c1 :: r2)) := List.perm_middle
    have s4 : (r1 ++ c1 :: r2).Perm (c1 :: (r1 ++ r2)) := List.perm_middle
    have s5 : (c2 :: (r1 ++ c1 :: r2)).Perm (c2 :: c1 :: (r1 ++ r2)) := s4.cons c2
    have s6 : (c2 :: c1 :: (r1 ++ r2)).Perm (c1 :: c2 :: (r1 ++ r2)) :=
      List.Perm.swap c1 c2 (r1 ++ r2)
    exact ((s2.trans s3).trans s5).trans s6
  exact hB.trans hA.symm

theorem mem_allConfigs {a b : List Nat} {L : List Nat} :
    (a, b) ∈ allConfigs L ↔ (a ++ b).Perm L := by
  unfold allConfigs
  rw [List.mem_toFinset, List.mem_flatMap]
  constructor
  · rintro ⟨p, hp, hmem⟩
    obtain ⟨k, _, hk⟩ := List.mem_map.mp hmem
    have hperm : p.Perm L := List.mem_permutations.mp hp
    injection hk with h1 h2
    rw [← h1, ← h2, List.take_append_drop]
    exact hperm
  · intro h
    refine ⟨a ++ b, List.mem_permutations.mpr h, ?_⟩
    refine List.mem_map.mpr ⟨a.length, ?_, ?_⟩
    · rw [List.mem_range]
      have := List.length_append a b
      omega
    · rw [List.take_left, List.drop_left]

theorem allConfigs_congr {L L2 : List Nat} (h : L.Perm L2) :
    allConfigs L = allConfigs L2 := by
  apply Finset.ext
  rintro ⟨a, b⟩
  rw [mem_allConfigs, mem_allConfigs]
  exact ⟨fun hx => hx.trans h, fun hx => hx.trans h.symm⟩

end AoC2020.Day22

namespace AoC2020.Day22

theorem recPlay_terminates_aux :
    ∀ (n k : Nat) (st : RGState),
      st.p1.length + st.p2.length ≤ n →
      st.seen.Nodup →
      (∀ x ∈ st.seen, (x.1 ++ x.2).Perm (st.p1 ++ st.p2)) →
      (allConfigs (st.p1 ++ st.p2)).card ≤ k + st.seen.length →
      ∃ f, (recPlay f st).isSome := by
  intro n
  induction n using Nat.strong_induction_on with
  | _ n IHn =>
  intro k
  induction k using Nat.strong_induction_on with
  | _ k IHk =>
  intro st hlen hnd hinv hmeas
  obtain ⟨d1, d2, seen⟩ := st
  dsimp only at hlen hnd hinv hmeas
  cases d1 with
  | nil => exact ⟨1, by rw [recPlay_nil1]; rfl⟩
  | cons c1 r1 =>
    cases d2 with
    | nil => exact ⟨1, by rw [recPlay_nil2]; rfl⟩
    | cons c2 r2 =>
      by_cases hseen : ((c1 :: r1, c2 :: r2) : List Nat × List Nat) ∈ seen
      · refine ⟨1, ?_⟩
        rw [recPlay_cons, if_pos hseen]
        rfl
      · have hnd2 : ((c1 :: r1, c2 :: r2) :: seen).Nodup :=
          List.nodup_cons.mpr ⟨hseen, hnd⟩
        have hsub : ∀ x ∈ (c1 :: r1, c2 :: r2) :: seen,
            x ∈ allConfigs ((c1 :: r1) ++ (c2 :: r2)) := by
          rintro ⟨xa, xb⟩ hx
          rcases List.mem_cons.mp hx with heq | hx2
          · injection heq with h1 h2
            subst h1
            subst h2
            exact mem_allConfigs.mpr (List.Perm.refl _)
          · exact mem_allConfigs.mpr (hinv (xa, xb) hx2)
        have hcard : seen.length + 1 ≤ (allConfigs ((c1 :: r1) ++ (c2 :: r2))).card := by
          have h1 : ((c1 :: r1, c2 :: r2) :: seen).toFinset ⊆
              allConfigs ((c1 :: r1) ++ (c2 :: r2)) :=
            fun x hx => hsub x (List.mem_toFinset.mp hx)
          have h2 := Finset.card_le_card h1
          rw [List.toFinset_card_of_nodup hnd2] at h2
          simpa using h2
        obtain ⟨k2, rfl⟩ : ∃ k2, k = k2 + 1 := ⟨k - 1, by omega⟩
        have hpw : ((r1 ++ [c1, c2]) ++ r2).Perm ((c1 :: r1) ++ (c2 :: r2)) :=
          perm_winner c1 c2 r1 r2
        have hpl : (r1 ++ (r2 ++ [c2, c1])).Perm ((c1 :: r1) ++ (c2 :: r2)) :=
          perm_loser c1 c2 r1 r2
        -- fuel for the winner-takes continuation
        obtain ⟨fw, hfw⟩ := IHk k2 (by omega)
          ⟨r1 ++ [c1, c2], r2, (c1 :: r1, c2 :: r2) :: seen⟩
          (by
            dsimp only
            simp only [List.length_append, List.length_cons, List.length_nil] at hlen ⊢
            omega)
          hnd2
          (by
            rintro ⟨xa, xb⟩ hx
            dsimp only
            rcases List.mem_cons.mp hx with heq | hx2
            · injection heq with h1 h2
              subst h1
              subst h2
              exact hpw.symm
            · exact (hinv (xa, xb) hx2).trans hpw.symm)
          (by
            dsimp only
            rw [allConfigs_congr hpw]
            simp only [List.length_cons]
            omega)
        -- fuel for the loser-takes continuation
        obtain ⟨fl, hfl⟩ := IHk k2 (by omega)
          ⟨r1, r2 ++ [c2, c1], (c1 :: r1, c2 :: r2) :: seen⟩
          (by
            dsimp only
            simp only [List.length_append, List.length_cons, List.length_nil] at hlen ⊢
            omega)
          hnd2
          (by
            rintro ⟨xa, xb⟩ hx
            dsimp only
            rcases List.mem_cons.mp hx with heq | hx2
            · injection heq with h1 h2
              subst h1
              subst h2
              exact hpl.symm
            · exact (hinv (xa, xb) hx2).trans hpl.symm)
          (by
            dsimp only
            rw [allConfigs_congr hpl]
            simp only [List.length_cons]
            omega)
        -- fuel for the recursive sub-game (strictly fewer cards)
        obtain ⟨fs, hfs⟩ := IHn (r1.length + r2.length)
          (by
            simp only [List.length_cons] at hlen
            omega)
          ((allConfigs ((r1.take c1) ++ (r2.take c2))).card)
          ⟨r1.take c1, r2.take c2, []⟩
          (by
            dsimp only
            simp only [List.length_take]
            omega)
          List.nodup_nil
          (by simp)
          (by simp)
        refine ⟨max fs (max fw fl) + 1, ?_⟩
        rw [recPlay_cons, if_neg hseen]
        obtain ⟨rw_, hrw⟩ := Option.isSome_iff_exists.mp hfw
        obtain ⟨rl, hrl⟩ := Option.isSome_iff_exists.mp hfl
        have hmw : recPlay (max fs (max fw fl)) ⟨r1 ++ [c1, c2], r2,
            (c1 :: r1, c2 :: r2) :: seen⟩ = some rw_ :=
          recPlay_mono fw _ _ _ hrw (by omega)
        have hml : recPlay (max fs (max fw fl)) ⟨r1, r2 ++ [c2, c1],
            (c1 :: r1, c2 :: r2) :: seen⟩ = some rl :=
          recPlay_mono fl _ _ _ hrl (by omega)
        by_cases hrec : c1 ≤ r1.length ∧ c2 ≤ r2.length
        · rw [if_pos hrec]
          obtain ⟨rs, hrs⟩ := Option.isSome_iff_exists.mp hfs
          have hms : recPlay (max fs (max fw fl)) ⟨r1.take c1, r2.take c2, []⟩ =
              some rs :=
            recPlay_mono fs _ _ _ hrs (by omega)
          rw [hms]
          obtain ⟨b, stf⟩ := rs
          cases b
          · rw [hml]
            rfl
          · rw [hmw]
            rfl
        · rw [if_neg hrec]
          by_cases hgt : c1 > c2
          · rw [if_pos hgt, hmw]
            rfl
          · rw [if_neg hgt, hml]
            rfl

/-- C9: day22's recursive card game always terminates - for every pair of
finite starting decks there is a round bound within which `RecursiveGame::play`
returns.  Each round either ends the game, hits a previously seen
configuration (player 1 wins), or records a new configuration from the
finite set `allConfigs` of arrangements of the game's fixed card multiset,
and every recursive sub-game starts with strictly fewer cards than its
parent; the proof follows exactly that double induction. -/
theorem recursive_game_terminates (d1 d2 : List Nat) :
    ∃ fuel, (recPlay fuel ⟨d1, d2, []⟩).isSome := by
  refine recPlay_terminates_aux (d1.length + d2.length)
    ((allConfigs (d1 ++ d2)).card) ⟨d1, d2, []⟩ le_rfl List.nodup_nil ?_ ?_
  · intro x hx
    simp at hx
  · simp

end AoC2020.Day22

namespace AoC2020.Utils

theorem readLinesAux_spec {α : Type} (parse : List Char → Except String α) :
    ∀ ls : List (List Char),
      readLinesAux parse ls =
        match firstParseErr parse ls with
        | some e => .error (.invalidData (invalidDataMsg e))
        | none => .ok (ls.filterMap (fun l => (parse l).toOption)) := by
  intro ls
  induction ls with
  | nil => rfl
  | cons l rest IH =>
    simp only [readLinesAux, firstParseErr, List.findSome?_cons, List.filterMap_cons]
    cases hp : parse l with
    | error e => rfl
    | ok v =>
      simp only [Except.toOption]
      rw [IH]
      simp only [firstParseErr]
      cases hf : rest.findSome?
          (fun l => match parse l with | .error e => some e | .ok _ => none) with
      | none => rfl
      | some e => rfl

/-- C2: the shared line reader fails exactly as documented - a missing file
yields the `NotFound` io error; a file with an unparsable line yields an
`InvalidData` error whose message carries the (first) parse error; and a
day's `main` (day9 embedded here) aborts on any reader error, with no
recovery path. -/
theorem input_error_handling {α : Type} (parse : List Char → Except String α)
    (fs : FS) (content : List Char) :
    (fs "input" = none → read_line_input parse fs "input" = .error .notFound) ∧
    (fs "input" = some content →
      ∀ e, firstParseErr parse (rustLines content) = some e →
        read_line_input parse fs "input" =
          .error (.invalidData (invalidDataMsg e))) ∧
    (∀ fs2 : FS, ∀ err : IOError,
      read_line_input parse_usizeE fs2 "input" = .error err →
      Day9.main fs2 = Run.aborted) := by
  refine ⟨?_, ?_, ?_⟩
  · intro h
    unfold read_line_input
    rw [h]
  · intro h e he
    unfold read_line_input
    rw [h]
    show readLinesAux parse (rustLines content) = _
    rw [readLinesAux_spec, he]
  · intro fs2 err herr
    unfold Day9.main
    rw [herr]

end AoC2020.Utils

namespace AoC2020.Utils

/-- Witness for C2: a missing file gives `NotFound`; the file `"1\nx\n3"`
gives `InvalidData` carrying the `ParseIntError` debug text of the
unparsable line `"x"`, and day9's `main` aborts on it. -/
theorem input_error_handling_witness :
    read_line_input parse_usizeE (fun _ => none) "input" = .error .notFound ∧
    read_line_input parse_usizeE
        (fun p => if p = "input" then some ("1\nx\n3".toList) else none) "input" =
      .error (.invalidData (invalidDataMsg
        "ParseIntError \x7b kind: InvalidDigit \x7d")) ∧
    Day9.main (fun p => if p = "input" then some ("1\nx\n3".toList) else none) =
      Run.aborted := by
  have h1 := (input_error_handling parse_usizeE (fun _ => none) []).1 rfl
  have h2 := (input_error_handling parse_usizeE
    (fun p => if p = "input" then some ("1\nx\n3".toList) else none)
    ("1\nx\n3".toList)).2.1 (by decide)
    "ParseIntError \x7b kind: InvalidDigit \x7d" (by decide)
  have h3 := (input_error_handling parse_usizeE
    (fun p => if p = "input" then some ("1\nx\n3".toList) else none)
    ("1\nx\n3".toList)).2.2
    (fun p => if p = "input" then some ("1\nx\n3".toList) else none) _ h2
  exact ⟨h1, h2, h3⟩

end AoC2020.Utils

namespace AoC2020.Day5

end AoC2020.Day5

namespace AoC2020.Day25

theorem derive_public_key_one : derive_public_key 1 = 7 := by
  rw [derive_public_key, mod_pow_correct GENERATOR 1 ORDER (by norm_num [ORDER])
    (by norm_num [ORDER, USIZE])]
  norm_num [GENERATOR, ORDER]

theorem main_fuel_one (fs : FS) : main 1 fs = Run.fuelOut := by
  simp [main, part1, reverse_private_key, derive_public_key_one]

end AoC2020.Day25

namespace AoC2020

/-- C3 (amended): every embedded day that reads a file reads exactly
`"input"` - it aborts when that file is missing and its behaviour depends on
the file system only through that file - while day25 ignores the file system
entirely (its input pair is hardcoded in `main`; day15 and day23, not
embedded here, likewise hardcode their puzzle input). -/
theorem input_file_acquisition :
    (∀ fs : FS, fs "input" = none → Day1.main fs = Run.aborted) ∧
    (∀ fs fs2 : FS, fs "input" = fs2 "input" → Day1.main fs = Day1.main fs2) ∧
    (∀ fs : FS, fs "input" = none → Day5.main fs = Run.aborted) ∧
    (∀ fs fs2 : FS, fs "input" = fs2 "input" → Day5.main fs = Day5.main fs2) ∧
    (∀ fs : FS, fs "input" = none → Day9.main fs = Run.aborted) ∧
    (∀ fs fs2 : FS, fs "input" = fs2 "input" → Day9.main fs = Day9.main fs2) ∧
    (∀ fs : FS, fs "input" = none → Day13.main fs = Run.aborted) ∧
    (∀ fs fs2 : FS, fs "input" = fs2 "input" → Day13.main fs = Day13.main fs2) ∧
    (∀ (fuel : Nat) (fs : FS), fs "input" = none → Day22.main fuel fs = Run.aborted) ∧
    (∀ (fuel : Nat) (fs fs2 : FS), fs "input" = fs2 "input" →
      Day22.main fuel fs = Day22.main fuel fs2) ∧
    (∀ (fuel : Nat) (fs fs2 : FS), Day25.main fuel fs = Day25.main fuel fs2) := by
  refine ⟨?_, ?_, ?_, ?_, ?_, ?_, ?_, ?_, ?_, ?_, ?_⟩
  · intro fs h
    unfold Day1.main Utils.read_line_input
    rw [h]
  · intro fs fs2 h
    unfold Day1.main Utils.read_line_input
    rw [h]
  · intro fs h
    unfold Day5.main Utils.read_line_input
    rw [h]
  · intro fs fs2 h
    unfold Day5.main Utils.read_line_input
    rw [h]
  · intro fs h
    unfold Day9.main Utils.read_line_input
    rw [h]
  · intro fs fs2 h
    unfold Day9.main Utils.read_line_input
    rw [h]
  · intro fs h
    unfold Day13.main Utils.read_to_string
    rw [h]
  · intro fs fs2 h
    unfold Day13.main Utils.read_to_string
    rw [h]
  · intro fuel fs h
    unfold Day22.main Utils.read_into_string_groups
    rw [h]
  · intro fuel fs fs2 h
    unfold Day22.main Utils.read_into_string_groups
    rw [h]
  · intro fuel fs fs2
    rfl

/-- Counterexample to C3 as stated: day25's `main` never touches the file
system.  With no `input` file at all it does not abort (at fuel 1 it is
simply still searching for the private key), and its behaviour is literally
identical under any two file systems. -/
theorem day25_reads_no_input_file :
    Day25.main 1 (fun _ => none) = Run.fuelOut ∧
    Run.fuelOut ≠ Run.aborted ∧
    Day25.main 1 (fun _ => none) =
      Day25.main 1 (fun p => if p = "input" then some ['7'] else none) := by
  refine ⟨Day25.main_fuel_one _, by decide, rfl⟩

/-- Witness for the amended C3: with no file system at all, the
file-reading days abort immediately. -/
theorem input_file_acquisition_witness :
    Day1.main (fun _ => none) = Run.aborted ∧
    Day13.main (fun _ => none) = Run.aborted ∧
    Day22.main 5 (fun _ => none) = Run.aborted := by
  obtain ⟨h1, _, _, _, _, _, h13, _, h22, _, _⟩ := input_file_acquisition
  exact ⟨h1 (fun _ => none) rfl, h13 (fun _ => none) rfl, h22 5 (fun _ => none) rfl⟩

end AoC2020

namespace AoC2020

/-- C1 (amended): every embedded day's successful run prints one
`"... result is X"` line per computed part, with the part answers in order.
Most days print exactly `"Part 1 result is X"` then `"Part 2 result is Y"`;
the exceptions visible in the source are day1, whose second line is
mislabelled `"Part 1 result is Y"`, day25, which prints only the part-1 line
(the last puzzle has no second part), and the unfinished day17 (not embedded
beyond its return value), which also prints a debug line from inside `part1`
and no part-2 line; day15 and day23 print the two standard lines. -/
theorem main_output_shapes :
    (∀ (fs : FS) (out : List String), Day1.main fs = Run.done out →
      ∃ r1 r2 : Nat, out = ["Part 1 result is " ++ toString r1,
                            "Part 1 result is " ++ toString r2]) ∧
    (∀ (fs : FS) (out : List String), Day5.main fs = Run.done out →
      ∃ r1 r2 : Nat, out = ["Part 1 result is " ++ toString r1,
                            "Part 2 result is " ++ toString r2]) ∧
    (∀ (fs : FS) (out : List String), Day9.main fs = Run.done out →
      ∃ r1 r2 : Nat, out = ["Part 1 result is " ++ toString r1,
                            "Part 2 result is " ++ toString r2]) ∧
    (∀ (fs : FS) (out : List String), Day13.main fs = Run.done out →
      ∃ r1 r2 : Nat, out = ["Part 1 result is " ++ toString r1,
                            "Part 2 result is " ++ toString r2]) ∧
    (∀ (fuel : Nat) (fs : FS) (out : List String), Day22.main fuel fs = Run.done out →
      ∃ r1 r2 : Nat, out = ["Part 1 result is " ++ toString r1,
                            "Part 2 result is " ++ toString r2]) ∧
    (∀ (fuel : Nat) (fs : FS) (out : List String), Day25.main fuel fs = Run.done out →
      ∃ r : Nat, out = ["Part 1 result is " ++ toString r]) := by
  refine ⟨?_, ?_, ?_, ?_, ?_, ?_⟩
  · intro fs out h
    unfold Day1.main at h
    split at h
    · exact absurd h (by simp)
    · split at h
      · exact absurd h (by simp)
      · split at h
        · exact absurd h (by simp)
        · injection h with h2
          exact ⟨_, _, h2.symm⟩
  · intro fs out h
    unfold Day5.main at h
    split at h
    · exact absurd h (by simp)
    · split at h
      · exact absurd h (by simp)
      · split at h
        · exact absurd h (by simp)
        · injection h with h2
          exact ⟨_, _, h2.symm⟩
  · intro fs out h
    unfold Day9.main at h
    split at h
    · exact absurd h (by simp)
    · split at h
      · exact absurd h (by simp)
      · split at h
        · exact absurd h (by simp)
        · injection h with h2
          exact ⟨_, _, h2.symm⟩
  · intro fs out h
    unfold Day13.main at h
    split at h
    · exact absurd h (by simp)
    · split at h
      · exact absurd h (by simp)
      · split at h
        · exact absurd h (by simp)
        · injection h with h2
          exact ⟨_, _, h2.symm⟩
  · intro fuel fs out h
    unfold Day22.main at h
    split at h
    · exact absurd h (by simp)
    · split at h
      · injection h with h2
        exact ⟨_, _, h2.symm⟩
      · exact absurd h (by simp)
  · intro fuel fs out h
    unfold Day25.main at h
    split at h
    · exact absurd h (by simp)
    · injection h with h2
      exact ⟨_, h2.symm⟩

/-- Counterexample to C1 as stated: on the sample input of its own unit
test, day1 prints its part-2 answer 241861950 under the label
`"Part 1 result is"` - the second stdout line is not
`"Part 2 result is 241861950"`.  (Day25's single-line output and day17's
debug line are further violations, see `day25_reads_no_input_file`.) -/
theorem day1_main_mislabels_part2 :
    Day1.main (fun p => if p = "input"
        then some ("1721\n979\n366\n299\n675\n1456".toList) else none) =
      Run.done ["Part 1 result is 514579", "Part 1 result is 241861950"] ∧
    ("Part 1 result is 241861950" : String) ≠ "Part 2 result is 241861950" := by
  refine ⟨by decide, by decide⟩

/-- Witness for the amended C1: a concrete day13 run prints exactly the two
standard lines. -/
theorem main_output_shapes_witness :
    Day13.main (fun p => if p = "input" then some ("0\n2,3".toList) else none) =
      Run.done ["Part 1 result is 0", "Part 2 result is 2"] ∧
    ∃ r1 r2 : Nat, ["Part 1 result is 0", "Part 2 result is 2"] =
      ["Part 1 result is " ++ toString r1, "Part 2 result is " ++ toString r2] := by
  have hrun : Day13.main (fun p => if p = "input" then some ("0\n2,3".toList) else none) =
      Run.done ["Part 1 result is 0", "Part 2 result is 2"] := by decide
  exact ⟨hrun, main_output_shapes.2.2.2.1 _ _ hrun⟩

end AoC2020
